import Mathlib

/-!
Verification of the scheduling core in `src/lambda/lambda_function.py`.

Modelling conventions:
* Python `datetime` instants are modelled as `Int` minutes; `timedelta(minutes=30)`
  is the integer `30`.
* Python `str` values are Lean `String`s; character-level operations work on
  `String.data : List Char`.
* The Supabase tables `events` and `availabilities` are modelled as lists of
  rows; an `insert` appends, an `update ... eq` maps over the list, and a
  `select ... eq` filters it.
* A Python function that can raise an exception which escapes to its caller is
  modelled with an explicit error constructor in its result type.
-/

/-! ### `parse_datetime` (lambda_function.py lines 47-48)

`datetime.strptime(dt_string.lstrip("start:"), "%y-%m-%d:%H-%M").isoformat()`.

`str.lstrip("start:")` removes leading characters drawn from the set
`{'s','t','a','r',':'}`.  the CPython `_strptime` module compiles the format into a
regular expression whose groups are, in order of the alternatives tried:
`%y ↦ \d\d`, `%m ↦ 1[0-2]|0[1-9]|[1-9]`, `%d ↦ 3[01]|[12]\d|0[1-9]|[1-9]`,
`%H ↦ 2[0-3]|[0-1]\d|\d`, `%M ↦ [0-5]\d|\d`, with the literal separators
`-`, `-`, `:`, `-` in between, and the whole input must be consumed.  The
matching value is then passed to the `datetime` constructor, which rejects a
day that does not exist in the given month.  Backtracking across a group is
modelled by trying each alternative together with the parse of the rest of
the input. -/

def digitVal (c : Char) : Nat := c.toNat - '0'.toNat

/-- One regex alternative: consumes a prefix, yields a value and the rest. -/
abbrev AltMatcher := List Char → Option (Nat × List Char)

/-- `\d\d` (the `%y` group): exactly two digits. -/
def matchY : AltMatcher := fun s =>
  match s with
  | c1 :: c2 :: rest =>
    if c1.isDigit && c2.isDigit then some (10 * digitVal c1 + digitVal c2, rest) else none
  | _ => none

/-- `1[0-2] | 0[1-9] | [1-9]` (the `%m` group). -/
def altsMonth : List AltMatcher :=
  [ fun s => match s with
      | c1 :: c2 :: rest =>
        if c1 = '1' && '0' ≤ c2 && c2 ≤ '2' then some (10 + digitVal c2, rest) else none
      | _ => none,
    fun s => match s with
      | c1 :: c2 :: rest =>
        if c1 = '0' && '1' ≤ c2 && c2 ≤ '9' then some (digitVal c2, rest) else none
      | _ => none,
    fun s => match s with
      | c :: rest => if '1' ≤ c && c ≤ '9' then some (digitVal c, rest) else none
      | _ => none ]

/-- `3[01] | [12]\d | 0[1-9] | [1-9]` (the `%d` group). -/
def altsDay : List AltMatcher :=
  [ fun s => match s with
      | c1 :: c2 :: rest =>
        if c1 = '3' && (c2 = '0' || c2 = '1') then some (30 + digitVal c2, rest) else none
      | _ => none,
    fun s => match s with
      | c1 :: c2 :: rest =>
        if (c1 = '1' || c1 = '2') && c2.isDigit then
          some (10 * digitVal c1 + digitVal c2, rest) else none
      | _ => none,
    fun s => match s with
      | c1 :: c2 :: rest =>
        if c1 = '0' && '1' ≤ c2 && c2 ≤ '9' then some (digitVal c2, rest) else none
      | _ => none,
    fun s => match s with
      | c :: rest => if '1' ≤ c && c ≤ '9' then some (digitVal c, rest) else none
      | _ => none ]

/-- `2[0-3] | [0-1]\d | \d` (the `%H` group). -/
def altsHour : List AltMatcher :=
  [ fun s => match s with
      | c1 :: c2 :: rest =>
        if c1 = '2' && '0' ≤ c2 && c2 ≤ '3' then some (20 + digitVal c2, rest) else none
      | _ => none,
    fun s => match s with
      | c1 :: c2 :: rest =>
        if (c1 = '0' || c1 = '1') && c2.isDigit then
          some (10 * digitVal c1 + digitVal c2, rest) else none
      | _ => none,
    fun s => match s with
      | c :: rest => if c.isDigit then some (digitVal c, rest) else none
      | _ => none ]

/-- `[0-5]\d | \d` (the `%M` group). -/
def altsMinute : List AltMatcher :=
  [ fun s => match s with
      | c1 :: c2 :: rest =>
        if '0' ≤ c1 && c1 ≤ '5' && c2.isDigit then
          some (10 * digitVal c1 + digitVal c2, rest) else none
      | _ => none,
    fun s => match s with
      | c :: rest => if c.isDigit then some (digitVal c, rest) else none
      | _ => none ]

/-- Consume one expected literal character. -/
def matchLit (c : Char) : List Char → Option (List Char) := fun s =>
  match s with
  | x :: rest => if x = c then some rest else none
  | _ => none

/-- Try the alternatives of one group in order; an alternative succeeds only if
the continuation `k` succeeds on the remaining input (regex backtracking). -/
def firstSome {α : Type} (alts : List AltMatcher) (s : List Char)
    (k : Nat → List Char → Option α) : Option α :=
  match alts with
  | [] => none
  | f :: fs =>
    match f s with
    | some (v, rest) =>
      match k v rest with
      | some r => some r
      | none => firstSome fs s k
    | none => firstSome fs s k

/-- The compiled pattern for `"%y-%m-%d:%H-%M"`, anchored at both ends. -/
def strptimeYmdHM (s : List Char) : Option (Nat × Nat × Nat × Nat × Nat) :=
  match matchY s with
  | none => none
  | some (y, s1) =>
    match matchLit '-' s1 with
    | none => none
    | some s2 =>
      firstSome altsMonth s2 (fun m s3 =>
        match matchLit '-' s3 with
        | none => none
        | some s4 =>
          firstSome altsDay s4 (fun d s5 =>
            match matchLit ':' s5 with
            | none => none
            | some s6 =>
              firstSome altsHour s6 (fun hh s7 =>
                match matchLit '-' s7 with
                | none => none
                | some s8 =>
                  firstSome altsMinute s8 (fun mm s9 =>
                    if s9.isEmpty then some (y, m, d, hh, mm) else none))))

/-- Two-digit years: CPython maps `0-68` to `2000-2068` and `69-99` to `1969-1999`. -/
def yearFrom2 (y : Nat) : Nat := if y ≤ 68 then 2000 + y else 1900 + y

def isLeapYear (yr : Nat) : Bool :=
  (yr % 4 = 0 && yr % 100 ≠ 0) || yr % 400 = 0

def daysInMonth (yr m : Nat) : Nat :=
  if m = 2 then (if isLeapYear yr then 29 else 28)
  else if m = 4 || m = 6 || m = 9 || m = 11 then 30
  else 31

/-- A parsed instant, as extracted by `parse_datetime` (year, month, day,
hour, minute); standing in for the `isoformat()` string of the source. -/
abbrev DT := Nat × Nat × Nat × Nat × Nat

/-- `parse_datetime` of lines 47-48: `lstrip("start:")`, then `strptime` with
format `"%y-%m-%d:%H-%M"`; the `datetime` constructor rejects an impossible
day-of-month.  `none` models the `ValueError` the source lets escape. -/
def parse_datetime (dt_string : List Char) : Option DT :=
  let stripped := dt_string.dropWhile (fun c => c ∈ ['s', 't', 'a', 'r', ':'])
  match strptimeYmdHM stripped with
  | none => none
  | some (y, m, d, hh, mm) =>
    if 0 < d ∧ d ≤ daysInMonth (yearFrom2 y) m then some (y, m, d, hh, mm) else none

/-! ### `rsvp` (lambda_function.py lines 51-83)

```
toks = availiable_time.split()
for i in range(len(toks), 2):
    try:
        start_time = parse_datetime(availiable_time[i])
        end_time = parse_datetime(availiable_time[i + 1])
    except Exception as e:
        return {"error": "Malformed available time data!" + str(e)}
supabase.table("availabilities").insert({... start_time, end_time ...})
```

`range(n, 2)` is `[n, n+1, ..., 1]`, empty whenever `n ≥ 2`.  The loop body
indexes the raw *string* (`availiable_time[i]`), not the token list.  If the
loop never ran, the insert payload reads the unbound names `start_time` /
`end_time`, raising `NameError`, which the outer `except` converts into a
generic error value.  An out-of-range string index raises `IndexError` inside
the inner `try`, producing the malformed-input error. -/

inductive RsvpResult where
  /-- A row was inserted into `availabilities` with these start/end values. -/
  | recorded (startTime endTime : DT)
  /-- `{"error": "Malformed available time data!" + str(e)}` from the inner `except`. -/
  | malformedError
  /-- The value built by the outer `except` (here: from the `NameError` on
  `start_time` when the loop body never executed). -/
  | genericError
deriving DecidableEq

/-- Python `str.split()` with no argument: split on runs of whitespace,
dropping empty tokens.  The accumulator holds the current token reversed. -/
def pySplitGo : List Char → List Char → List (List Char)
  | [], cur => if cur.isEmpty then [] else [cur.reverse]
  | c :: rest, cur =>
    if c.isWhitespace then
      if cur.isEmpty then pySplitGo rest [] else cur.reverse :: pySplitGo rest []
    else pySplitGo rest (c :: cur)

def pySplit (s : List Char) : List (List Char) := pySplitGo s []

/-- Python `range(a, 2)` as a list of natural numbers. -/
def pyRangeTo2 (a : Nat) : List Nat := List.range' a (2 - a)

/-- Outcome of the `for` loop of `rsvp`: either the inner `except` fired, or
the loop finished with the final values bound to `start_time`/`end_time`
(`none` when the body never executed, so the names are unbound). -/
inductive RsvpLoopOut where
  | failed
  | finished (acc : Option (DT × DT))
deriving DecidableEq

def rsvpLoop (chars : List Char) : List Nat → Option (DT × DT) → RsvpLoopOut
  | [], acc => .finished acc
  | i :: rest, _acc =>
    match chars[i]? with
    | none => .failed
    | some c1 =>
      match parse_datetime [c1] with
      | none => .failed
      | some st =>
        match chars[i + 1]? with
        | none => .failed
        | some c2 =>
          match parse_datetime [c2] with
          | none => .failed
          | some en => rsvpLoop chars rest (some (st, en))

/-- `rsvp` of lines 51-83, as a function of the `availiable_time` argument.
The `user_id` / `event_id` fields of the inserted row do not influence
control flow and are omitted from the result. -/
def rsvp (availiable_time : String) : RsvpResult :=
  let tokenCount := (pySplit availiable_time.data).length
  match rsvpLoop availiable_time.data (pyRangeTo2 tokenCount) none with
  | .failed => .malformedError
  | .finished none => .genericError
  | .finished (some (st, en)) => .recorded st en

/-! ### `select_time` (lambda_function.py lines 86-136)

The fetch `supabase.table("availabilities").select("*").eq("eventID", event_id)`
is modelled as filtering the `availabilities` table by event.  After the
emptiness check the function computes the overall `min`/`max`, builds the
30-minute slots in a `while` loop, and takes `max(slots, key=coverage)` —
the Python `max` keeps the *first* item among several with a maximal key. -/

/-- One row of the `availabilities` table. -/
structure AvailRow where
  userID : String
  eventID : String
  startTime : Int
  endTime : Int
deriving DecidableEq

/-- `start_time = min(avail["startTime"] for avail in availabilities)`,
with `availabilities = a :: rest`: the Python `min` folds over the sequence. -/
def globalStart (a : AvailRow) (rest : List AvailRow) : Int :=
  rest.foldl (fun m w => min m w.startTime) a.startTime

/-- `end_time = max(avail["endTime"] for avail in availabilities)`. -/
def globalEnd (a : AvailRow) (rest : List AvailRow) : Int :=
  rest.foldl (fun m w => max m w.endTime) a.endTime

/-- The `while current_time < end_time` loop of lines 116-120: 30-minute
slots `(current, current + 30)` starting at `current`. -/
def genSlots (current endTime : Int) : List (Int × Int) :=
  if current < endTime then (current, current + 30) :: genSlots (current + 30) endTime
  else []
termination_by (endTime - current).toNat
decreasing_by omega

/-- The key of line 125-129:
`sum(1 for avail in availabilities if avail["startTime"] <= slot[0] and avail["endTime"] >= slot[1])`. -/
def coverage (availabilities : List AvailRow) (slot : Int × Int) : Nat :=
  availabilities.countP (fun avail => avail.startTime ≤ slot.1 && slot.2 ≤ avail.endTime)

/-- Python `max(iterable, key=k)`: `none` on an empty iterable (a `ValueError`
in the source, caught by the enclosing `except`); otherwise a left fold that
replaces the current best only on a strictly larger key, so the first maximal
element wins. -/
def pyMax (key : Int × Int → Nat) : List (Int × Int) → Option (Int × Int)
  | [] => none
  | x :: xs => some (xs.foldl (fun acc s => if key acc < key s then s else acc) x)

/-- Lines 103-132 of `select_time`, applied to the fetched availability list:
the emptiness guard, the global span, slot generation, and the `max`. -/
def select_time_windows : List AvailRow → Option Int
  | [] => none
  | a :: rest =>
    match pyMax (fun slot => coverage (a :: rest) slot)
        (genSlots (globalStart a rest) (globalEnd a rest)) with
    | none => none
    | some best => some best.1

/-- `select_time` of lines 86-136: fetch the rows of the event, then run the
aggregation; any escape of the slot computation (only possible as the
`ValueError` of `max` on no slots) yields `None` through the `except`. -/
def select_time (rows : List AvailRow) (event_id : String) : Option Int :=
  select_time_windows (rows.filter (fun r => r.eventID = event_id))

/-! ### `update_event_time` and `find_best_time` (lines 139-171) -/

/-- One row of the `events` table (only the fields the claims touch). -/
structure EventRow where
  eventID : String
  confirmedTime : Option Int
deriving DecidableEq

/-- Result value of a store-facing operation: `{"message": ...}` or
`{"error": ...}`. -/
inductive OpResult where
  | ok (msg : String)
  | err (msg : String)
deriving DecidableEq

/-- `update_event_time` of lines 139-157:
`supabase.table("events").update({"confirmedTime": confirmed_time}).eq("eventID", event_id)` —
an unconditional update of every row whose `eventID` matches. -/
def update_event_time (events : List EventRow) (event_id : String)
    (confirmed_time : Int) : List EventRow × OpResult :=
  (events.map (fun e =>
      if e.eventID = event_id then { e with confirmedTime := some confirmed_time } else e),
   .ok "Event time updated successfully")

/-- `find_best_time` of lines 160-171: compute the best time and, when one
exists (`if best_time:` — a non-empty isoformat string is truthy), write it. -/
def find_best_time (rows : List AvailRow) (events : List EventRow)
    (event_id : String) : List EventRow × OpResult :=
  match select_time rows event_id with
  | some t => update_event_time events event_id t
  | none => (events, .err "Unable to find a suitable time")

/-! ### `create_event` and `lambda_handler` (lines 19-44 and 174-227)

The handler reads `event.get("actionGroup", "")`, `event.get("function", "")`,
dispatches on the function name, and finally builds a wrapper that reads
`event["messageVersion"]` (a `KeyError` if absent).  `get_named_parameter`
evaluates `next(item for item in event["parameters"] if item["name"] == name)`:
a `KeyError` if the `parameters` key is absent, a `StopIteration` if no item
matches.  None of these exceptions is caught anywhere in the handler, so they
crash the request; a crash is modelled as an explicit outcome. -/

/-- The durable store: the `events` and `availabilities` tables. -/
structure Store where
  events : List EventRow
  availabilities : List AvailRow
deriving DecidableEq

/-- The fields of the invocation payload that the handler reads.  `none`
models an absent key. -/
structure LambdaEvent where
  actionGroup : Option String
  function : Option String
  parameters : Option (List (String × String))
  messageVersion : Option String
deriving DecidableEq

/-- `get_named_parameter` of lines 12-16.  `Except.error` carries the
uncaught exception. -/
def get_named_parameter (parameters : Option (List (String × String)))
    (name : String) : Except String String :=
  match parameters with
  | none => .error "KeyError: parameters"
  | some ps =>
    match ps.find? (fun item => item.1 = name) with
    | none => .error "StopIteration"
    | some item => .ok item.2

/-- `create_event` of lines 19-44: insert a row into `events` with
`confirmedTime = None` and return the store-assigned identifier.  The
identifier is generated by the database; it is modelled as the row count.
The `groupID`/`period`/`description` attributes of the new row play no role
in any claim and are not carried in `EventRow`. -/
def create_event (store : Store) : Store × String :=
  let newID := toString store.events.length
  ({ store with events := store.events ++ [⟨newID, none⟩] }, newID)

/-- The `body` field of the handler `response_body`. -/
inductive Body where
  /-- `json.dumps` of the `{"message"/"error": ...}` dict of an operation. -/
  | jsonResult (r : OpResult)
  /-- `json.dumps` of the `{"eventID": ...}` dict of `create_event`. -/
  | jsonEventId (id : String)
  /-- a literal string body such as `"Invalid function"`. -/
  | text (s : String)
deriving DecidableEq

/-- What one invocation of `lambda_handler` does: return the final
`function_response` (its body together with the echoed `function`,
`actionGroup` and `messageVersion` fields), or crash with an uncaught
exception. -/
inductive Outcome where
  | response (body : Body) (function actionGroup messageVersion : String)
  | crash (msg : String)
deriving DecidableEq

/-- `lambda_handler` of lines 174-227.  In the `rsvp` branch, line 197 reads
`if user_id and event_id and start_time and end_time:` — Python evaluates the
conjunction left to right, so an empty `user_id` or `event_id` selects the
`else` branch, but otherwise the unbound name `start_time` is evaluated and
the `NameError` escapes. -/
def lambda_handler (store : Store) (ev : LambdaEvent) : Store × Outcome :=
  let action_group := ev.actionGroup.getD ""
  let function := ev.function.getD ""
  let branch : Store × Except String Body :=
    if function = "create_event" then
      match get_named_parameter ev.parameters "group_id" with
      | .error m => (store, .error m)
      | .ok group_id =>
        match get_named_parameter ev.parameters "period" with
        | .error m => (store, .error m)
        | .ok period =>
          match get_named_parameter ev.parameters "description" with
          | .error m => (store, .error m)
          | .ok description =>
            if group_id = "" then (store, .ok (.text "Missing required parameters"))
            else if period = "" then (store, .ok (.text "Missing required parameters"))
            else if description = "" then (store, .ok (.text "Missing required parameters"))
            else
              let res := create_event store
              (res.1, .ok (.jsonEventId res.2))
    else if function = "rsvp" then
      match get_named_parameter ev.parameters "user_id" with
      | .error m => (store, .error m)
      | .ok user_id =>
        match get_named_parameter ev.parameters "event_id" with
        | .error m => (store, .error m)
        | .ok event_id =>
          match get_named_parameter ev.parameters "availiable_time" with
          | .error m => (store, .error m)
          | .ok _availiable_time =>
            if user_id = "" then (store, .ok (.text "Missing required parameters"))
            else if event_id = "" then (store, .ok (.text "Missing required parameters"))
            else (store, .error "NameError: name start_time is not defined")
    else if function = "find_best_time`" then
      match get_named_parameter ev.parameters "event_id" with
      | .error m => (store, .error m)
      | .ok event_id =>
        if event_id = "" then (store, .ok (.text "Missing event_id parameter"))
        else
          let res := find_best_time store.availabilities store.events event_id
          ({ store with events := res.1 }, .ok (.jsonResult res.2))
    else (store, .ok (.text "Invalid function"))
  match branch with
  | (s, .error m) => (s, .crash m)
  | (s, .ok body) =>
    match ev.messageVersion with
    | none => (s, .crash "KeyError: messageVersion")
    | some mv => (s, .response body function action_group mv)

/-! ## Lemmas and claim theorems -/

/-- The `"%y-%m-%d:%H-%M"` pattern never matches a string of at most one
character: the `%y` group alone needs two digits. -/
lemma strptime_short (l : List Char) (h : l.length ≤ 1) : strptimeYmdHM l = none := by
  match l with
  | [] => rfl
  | [c] => rfl
  | c1 :: c2 :: rest => simp at h

/-- A single character can never satisfy `parse_datetime`: after `lstrip` at
most one character is left. -/
lemma parse_datetime_single (c : Char) : parse_datetime [c] = none := by
  have h : strptimeYmdHM (List.dropWhile (fun c => decide (c ∈ ['s', 't', 'a', 'r', ':'])) [c]) = none := by
    cases hb : decide (c ∈ ['s', 't', 'a', 'r', ':']) with
    | false =>
      have hd : List.dropWhile (fun c => decide (c ∈ ['s', 't', 'a', 'r', ':'])) [c] = [c] := by
        simp only [List.dropWhile, hb]
      rw [hd]
      exact strptime_short _ (by simp)
    | true =>
      have hd : List.dropWhile (fun c => decide (c ∈ ['s', 't', 'a', 'r', ':'])) [c] = [] := by
        simp only [List.dropWhile, hb]
      rw [hd]
      exact strptime_short _ (by simp)
  simp only [parse_datetime, h]

lemma pyRangeTo2_of_ge (n : Nat) (h : 2 ≤ n) : pyRangeTo2 n = [] := by
  unfold pyRangeTo2
  have h2 : 2 - n = 0 := by omega
  rw [h2]
  rfl

theorem rsvp_never_records (s : String) :
    rsvp s = .malformedError ∨ rsvp s = .genericError := by
  by_cases h : 2 ≤ (pySplit s.data).length
  · right
    simp only [rsvp, pyRangeTo2_of_ge _ h]
    rfl
  · left
    have hfail : ∀ i rest, rsvpLoop s.data (i :: rest) none = .failed := by
      intro i rest
      cases hc : s.data[i]? with
      | none => simp [rsvpLoop, hc]
      | some c1 => simp [rsvpLoop, hc, parse_datetime_single]
    have hcase : (pySplit s.data).length = 0 ∨ (pySplit s.data).length = 1 := by omega
    rcases hcase with h0 | h1
    · have e1 : pyRangeTo2 0 = [0, 1] := rfl
      simp [rsvp, h0, e1, hfail]
    · have e1 : pyRangeTo2 1 = [1] := rfl
      simp [rsvp, h1, e1, hfail]

theorem rsvp_wellformed_pair_rejected :
    rsvp "start:24-01-01:10-00 end:24-01-01:11-00" = .genericError := by decide

theorem rsvp_odd_token_count_generic :
    rsvp "start:24-01-01:10-00 end:24-01-01:11-00 start:24-01-02:10-00" = .genericError ∧
    rsvp "start:24-01-01:10-00 end:24-01-01:11-00 start:24-01-02:10-00" ≠ .malformedError := by
  decide

/-- The value of a left fold with `min` is one of the fold inputs. -/
lemma foldl_min_mem (x : Int) (l : List Int) : l.foldl min x ∈ x :: l := by
  induction l generalizing x with
  | nil => simp
  | cons y ys ih =>
    rw [List.foldl_cons]
    rcases List.mem_cons.1 (ih (min x y)) with h | h
    · rcases min_choice x y with hm | hm <;> rw [h, hm] <;> simp
    · simp [List.mem_cons.2 (Or.inr (List.mem_cons.2 (Or.inr h)))]

/-- The value of a left fold with `min` is a lower bound of the inputs. -/
lemma foldl_min_le (x : Int) (l : List Int) : ∀ y ∈ x :: l, l.foldl min x ≤ y := by
  induction l generalizing x with
  | nil => simp
  | cons z zs ih =>
    intro y hy
    rw [List.foldl_cons]
    rcases List.mem_cons.1 hy with rfl | hy2
    · exact le_trans (ih _ _ (List.mem_cons_self _ _)) (min_le_left _ _)
    · rcases List.mem_cons.1 hy2 with rfl | hy3
      · exact le_trans (ih _ _ (List.mem_cons_self _ _)) (min_le_right _ _)
      · exact ih _ _ (List.mem_cons.2 (Or.inr hy3))

/-- The value of a left fold with `max` is one of the fold inputs. -/
lemma foldl_max_mem (x : Int) (l : List Int) : l.foldl max x ∈ x :: l := by
  induction l generalizing x with
  | nil => simp
  | cons y ys ih =>
    rw [List.foldl_cons]
    rcases List.mem_cons.1 (ih (max x y)) with h | h
    · rcases max_choice x y with hm | hm <;> rw [h, hm] <;> simp
    · simp [List.mem_cons.2 (Or.inr (List.mem_cons.2 (Or.inr h)))]

/-- The value of a left fold with `max` is an upper bound of the inputs. -/
lemma foldl_max_ge (x : Int) (l : List Int) : ∀ y ∈ x :: l, y ≤ l.foldl max x := by
  induction l generalizing x with
  | nil => simp
  | cons z zs ih =>
    intro y hy
    rw [List.foldl_cons]
    rcases List.mem_cons.1 hy with rfl | hy2
    · exact le_trans (le_max_left _ _) (ih _ _ (List.mem_cons_self _ _))
    · rcases List.mem_cons.1 hy2 with rfl | hy3
      · exact le_trans (le_max_right _ _) (ih _ _ (List.mem_cons_self _ _))
      · exact ih _ _ (List.mem_cons.2 (Or.inr hy3))

lemma globalStart_eq_foldl (a : AvailRow) (rest : List AvailRow) :
    globalStart a rest = (rest.map AvailRow.startTime).foldl min a.startTime := by
  rw [globalStart, List.foldl_map]

lemma globalEnd_eq_foldl (a : AvailRow) (rest : List AvailRow) :
    globalEnd a rest = (rest.map AvailRow.endTime).foldl max a.endTime := by
  rw [globalEnd, List.foldl_map]

/-- `globalStart` is the minimum of the window starts: it is attained by a
window and bounds every window from below. -/
lemma globalStart_spec (a : AvailRow) (rest : List AvailRow) :
    (∃ w ∈ a :: rest, globalStart a rest = w.startTime) ∧
    (∀ w ∈ a :: rest, globalStart a rest ≤ w.startTime) := by
  rw [globalStart_eq_foldl]
  constructor
  · rcases List.mem_cons.1 (foldl_min_mem a.startTime (rest.map AvailRow.startTime)) with h | h
    · exact ⟨a, List.mem_cons_self _ _, h⟩
    · obtain ⟨w, hw, hval⟩ := List.mem_map.1 h
      exact ⟨w, List.mem_cons.2 (Or.inr hw), hval.symm⟩
  · intro w hw
    rcases List.mem_cons.1 hw with rfl | hw2
    · exact foldl_min_le _ _ _ (List.mem_cons_self _ _)
    · exact foldl_min_le _ _ _ (List.mem_cons.2 (Or.inr (List.mem_map.2 ⟨w, hw2, rfl⟩)))

/-- `globalEnd` is the maximum of the window ends. -/
lemma globalEnd_spec (a : AvailRow) (rest : List AvailRow) :
    (∃ w ∈ a :: rest, globalEnd a rest = w.endTime) ∧
    (∀ w ∈ a :: rest, w.endTime ≤ globalEnd a rest) := by
  rw [globalEnd_eq_foldl]
  constructor
  · rcases List.mem_cons.1 (foldl_max_mem a.endTime (rest.map AvailRow.endTime)) with h | h
    · exact ⟨a, List.mem_cons_self _ _, h⟩
    · obtain ⟨w, hw, hval⟩ := List.mem_map.1 h
      exact ⟨w, List.mem_cons.2 (Or.inr hw), hval.symm⟩
  · intro w hw
    rcases List.mem_cons.1 hw with rfl | hw2
    · exact foldl_max_ge _ _ _ (List.mem_cons_self _ _)
    · exact foldl_max_ge _ _ _ (List.mem_cons.2 (Or.inr (List.mem_map.2 ⟨w, hw2, rfl⟩)))

lemma genSlots_eq (c e : Int) :
    genSlots c e = if c < e then (c, c + 30) :: genSlots (c + 30) e else [] := by
  rw [genSlots]

/-- Every generated slot starts at or after the start point of the loop. -/
lemma genSlots_lb (e : Int) : ∀ (c : Int), ∀ p ∈ genSlots c e, c ≤ p.1 := by
  have H : ∀ (n : Nat) (c : Int), (e - c).toNat ≤ n → ∀ p ∈ genSlots c e, c ≤ p.1 := by
    intro n
    induction n with
    | zero =>
      intro c hc p hp
      have hlt : ¬c < e := by omega
      rw [genSlots_eq, if_neg hlt] at hp
      simp at hp
    | succ n ih =>
      intro c hc p hp
      rw [genSlots_eq] at hp
      by_cases h : c < e
      · rw [if_pos h] at hp
        rcases List.mem_cons.1 hp with rfl | hp2
        · simp
        · have := ih (c + 30) (by omega) p hp2
          omega
      · rw [if_neg h] at hp
        simp at hp
  intro c
  exact H (e - c).toNat c le_rfl

/-- The generated slots are sorted by start instant. -/
lemma genSlots_sorted (e : Int) : ∀ (c : Int),
    (genSlots c e).Pairwise (fun p q => p.1 ≤ q.1) := by
  have H : ∀ (n : Nat) (c : Int), (e - c).toNat ≤ n →
      (genSlots c e).Pairwise (fun p q => p.1 ≤ q.1) := by
    intro n
    induction n with
    | zero =>
      intro c hc
      have hlt : ¬c < e := by omega
      rw [genSlots_eq, if_neg hlt]
      exact List.Pairwise.nil
    | succ n ih =>
      intro c hc
      rw [genSlots_eq]
      by_cases h : c < e
      · rw [if_pos h]
        refine List.Pairwise.cons ?_ (ih (c + 30) (by omega))
        intro q hq
        have := genSlots_lb e (c + 30) q hq
        simp only
        omega
      · rw [if_neg h]
        exact List.Pairwise.nil
  intro c
  exact H (e - c).toNat c le_rfl

/-- Closed form of the slot loop: exactly `⌈(e - c) / 30⌉` slots, the `k`-th
being `[c + 30k, c + 30(k+1))`. -/
lemma genSlots_closed (e : Int) : ∀ (c : Int),
    genSlots c e = (List.range (((e - c).toNat + 29) / 30)).map
      (fun k : Nat => ((c + 30 * (k : Int), c + 30 * ((k : Int) + 1)) : Int × Int)) := by
  have H : ∀ (n : Nat) (c : Int), (e - c).toNat ≤ n →
      genSlots c e = (List.range (((e - c).toNat + 29) / 30)).map
        (fun k : Nat => ((c + 30 * (k : Int), c + 30 * ((k : Int) + 1)) : Int × Int)) := by
    intro n
    induction n with
    | zero =>
      intro c hc
      have hlt : ¬c < e := by omega
      have hz : ((e - c).toNat + 29) / 30 = 0 := by omega
      rw [genSlots_eq, if_neg hlt, hz]
      rfl
    | succ n ih =>
      intro c hc
      by_cases h : c < e
      · have hcount : ((e - c).toNat + 29) / 30 = ((e - (c + 30)).toNat + 29) / 30 + 1 := by
          omega
        rw [genSlots_eq, if_pos h, ih (c + 30) (by omega), hcount,
          List.range_succ_eq_map, List.map_cons, List.map_map]
        congr 1
        · norm_num
        · apply List.map_congr_left
          intro k _
          simp only [Function.comp_apply, Prod.mk.injEq]
          constructor <;> push_cast <;> ring
      · have hlt : ¬c < e := h
        have hz : ((e - c).toNat + 29) / 30 = 0 := by omega
        rw [genSlots_eq, if_neg hlt, hz]
        rfl
  intro c
  exact H (e - c).toNat c le_rfl

/-- The Python `max` as a left fold that replaces the accumulator only on a
strictly larger key: the result is an input, its key is maximal, and among
inputs of maximal key (in a list sorted by start) it has the earliest start. -/
lemma pyMaxFold_spec (key : Int × Int → Nat) (l : List (Int × Int)) :
    ∀ (b : Int × Int), (b :: l).Pairwise (fun p q => p.1 ≤ q.1) →
    (l.foldl (fun acc s => if key acc < key s then s else acc) b ∈ b :: l ∧
     (∀ s ∈ b :: l, key s ≤ key (l.foldl (fun acc s => if key acc < key s then s else acc) b)) ∧
     (∀ s ∈ b :: l, key s = key (l.foldl (fun acc s => if key acc < key s then s else acc) b) →
        (l.foldl (fun acc s => if key acc < key s then s else acc) b).1 ≤ s.1)) := by
  induction l with
  | nil =>
    intro b _
    refine ⟨List.mem_cons_self _ _, ?_, ?_⟩
    · intro s hs
      rcases List.mem_cons.1 hs with rfl | hs2
      · exact le_rfl
      · simp at hs2
    · intro s hs _
      rcases List.mem_cons.1 hs with rfl | hs2
      · exact le_rfl
      · simp at hs2
  | cons y ys ih =>
    intro b hsort
    have hby : b.1 ≤ y.1 := (List.pairwise_cons.1 hsort).1 y (List.mem_cons_self _ _)
    have hb_all := (List.pairwise_cons.1 hsort).1
    have htail := (List.pairwise_cons.1 hsort).2
    simp only [List.foldl_cons]
    by_cases hk : key b < key y
    · rw [if_pos hk]
      obtain ⟨hmem, hmax, hfirst⟩ := ih y htail
      refine ⟨List.mem_cons.2 (Or.inr hmem), ?_, ?_⟩
      · intro s hs
        rcases List.mem_cons.1 hs with rfl | hs2
        · exact le_trans (le_of_lt hk) (hmax y (List.mem_cons_self _ _))
        · exact hmax s hs2
      · intro s hs heq
        rcases List.mem_cons.1 hs with rfl | hs2
        · exfalso
          have : key s < key (ys.foldl (fun acc s => if key acc < key s then s else acc) y) :=
            lt_of_lt_of_le hk (hmax y (List.mem_cons_self _ _))
          omega
        · exact hfirst s hs2 heq
    · rw [if_neg hk]
      have hsort' : (b :: ys).Pairwise (fun p q => p.1 ≤ q.1) := by
        refine List.pairwise_cons.2 ⟨?_, (List.pairwise_cons.1 htail).2⟩
        intro q hq
        exact hb_all q (List.mem_cons.2 (Or.inr hq))
      obtain ⟨hmem, hmax, hfirst⟩ := ih b hsort'
      refine ⟨?_, ?_, ?_⟩
      · rcases List.mem_cons.1 hmem with hr | hr
        · rw [hr]
          exact List.mem_cons_self _ _
        · exact List.mem_cons.2 (Or.inr (List.mem_cons.2 (Or.inr hr)))
      · intro s hs
        rcases List.mem_cons.1 hs with rfl | hs2
        · exact hmax s (List.mem_cons_self _ _)
        · rcases List.mem_cons.1 hs2 with rfl | hs3
          · exact le_trans (le_of_not_lt hk) (hmax b (List.mem_cons_self _ _))
          · exact hmax s (List.mem_cons.2 (Or.inr hs3))
      · intro s hs heq
        rcases List.mem_cons.1 hs with rfl | hs2
        · exact hfirst s (List.mem_cons_self _ _) heq
        · rcases List.mem_cons.1 hs2 with rfl | hs3
          · have hkb : key b = key (ys.foldl (fun acc s => if key acc < key s then s else acc) b) := by
              have h1 := hmax b (List.mem_cons_self _ _)
              have h2 := le_of_not_lt hk
              omega
            exact le_trans (hfirst b (List.mem_cons_self _ _) hkb) hby
          · exact hfirst s (List.mem_cons.2 (Or.inr hs3)) heq

/-- The whole aggregation is invariant under permutation of the fetched
availability list: the global span, the coverage counts and hence the
selected slot do not depend on the submission order. -/
lemma select_time_windows_perm (l1 l2 : List AvailRow) (h : l1.Perm l2) :
    select_time_windows l1 = select_time_windows l2 := by
  cases l1 with
  | nil =>
    have : l2 = [] := (h.nil_eq).symm
    rw [this]
  | cons a r1 =>
    cases l2 with
    | nil =>
      exact absurd h.symm.nil_eq (by simp)
    | cons b r2 =>
      have hmem := fun w => h.mem_iff (a := w)
      have hgs : globalStart a r1 = globalStart b r2 := by
        obtain ⟨w1, hw1, he1⟩ := (globalStart_spec a r1).1
        obtain ⟨w2, hw2, he2⟩ := (globalStart_spec b r2).1
        have h1 := (globalStart_spec b r2).2 w1 ((hmem w1).1 hw1)
        have h2 := (globalStart_spec a r1).2 w2 ((hmem w2).2 hw2)
        omega
      have hge : globalEnd a r1 = globalEnd b r2 := by
        obtain ⟨w1, hw1, he1⟩ := (globalEnd_spec a r1).1
        obtain ⟨w2, hw2, he2⟩ := (globalEnd_spec b r2).1
        have h1 := (globalEnd_spec b r2).2 w1 ((hmem w1).1 hw1)
        have h2 := (globalEnd_spec a r1).2 w2 ((hmem w2).2 hw2)
        omega
      have hcov : (fun slot => coverage (a :: r1) slot) = (fun slot => coverage (b :: r2) slot) := by
        funext slot
        exact h.countP_eq _
      simp only [select_time_windows, hgs, hge, hcov]

/-- C2: on a non-empty list of availability windows (each with a positive
duration), `select_time` picks a generated slot whose coverage is maximal,
and among the slots of maximal coverage it picks the chronologically
earliest; the selection is invariant under permutation of the window list. -/
theorem select_time_best (a : AvailRow) (rest : List AvailRow)
    (hw : ∀ w ∈ a :: rest, w.startTime < w.endTime) :
    (∃ best ∈ genSlots (globalStart a rest) (globalEnd a rest),
        select_time_windows (a :: rest) = some best.1 ∧
        (∀ s ∈ genSlots (globalStart a rest) (globalEnd a rest),
            coverage (a :: rest) s ≤ coverage (a :: rest) best) ∧
        (∀ s ∈ genSlots (globalStart a rest) (globalEnd a rest),
            coverage (a :: rest) s = coverage (a :: rest) best → best.1 ≤ s.1)) ∧
    (∀ l' : List AvailRow, (a :: rest).Perm l' →
        select_time_windows (a :: rest) = select_time_windows l') := by
  constructor
  · have hlt : globalStart a rest < globalEnd a rest := by
      obtain ⟨w, hwmem, hwe⟩ := (globalEnd_spec a rest).1
      have h1 := (globalStart_spec a rest).2 w hwmem
      have h2 := hw w hwmem
      omega
    obtain ⟨x, xs, hslots⟩ : ∃ x xs,
        genSlots (globalStart a rest) (globalEnd a rest) = x :: xs := by
      rw [genSlots_eq, if_pos hlt]
      exact ⟨_, _, rfl⟩
    have hsorted := genSlots_sorted (globalEnd a rest) (globalStart a rest)
    rw [hslots] at hsorted
    obtain ⟨hmem, hmax, hfirst⟩ :=
      pyMaxFold_spec (fun slot => coverage (a :: rest) slot) xs x hsorted
    refine ⟨xs.foldl (fun acc s =>
        if coverage (a :: rest) acc < coverage (a :: rest) s then s else acc) x, ?_, ?_, ?_, ?_⟩
    · rw [hslots]
      exact hmem
    · simp only [select_time_windows, hslots, pyMax]
    · intro s hs
      rw [hslots] at hs
      exact hmax s hs
    · intro s hs heq
      rw [hslots] at hs
      exact hfirst s hs heq
  · intro l' hperm
    exact select_time_windows_perm _ _ hperm

/-- Witness for C2 at the single window `("A", "e", 0, 60)`. -/
theorem select_time_best_witness :
    (∃ best ∈ genSlots (globalStart ⟨"A", "e", 0, 60⟩ []) (globalEnd ⟨"A", "e", 0, 60⟩ []),
        select_time_windows [⟨"A", "e", 0, 60⟩] = some best.1 ∧
        (∀ s ∈ genSlots (globalStart ⟨"A", "e", 0, 60⟩ []) (globalEnd ⟨"A", "e", 0, 60⟩ []),
            coverage [⟨"A", "e", 0, 60⟩] s ≤ coverage [⟨"A", "e", 0, 60⟩] best) ∧
        (∀ s ∈ genSlots (globalStart ⟨"A", "e", 0, 60⟩ []) (globalEnd ⟨"A", "e", 0, 60⟩ []),
            coverage [⟨"A", "e", 0, 60⟩] s = coverage [⟨"A", "e", 0, 60⟩] best → best.1 ≤ s.1)) ∧
    (∀ l' : List AvailRow, [(⟨"A", "e", 0, 60⟩ : AvailRow)].Perm l' →
        select_time_windows [⟨"A", "e", 0, 60⟩] = select_time_windows l') :=
  select_time_best ⟨"A", "e", 0, 60⟩ [] (by decide)

/-- C5: for a non-empty window list the span of the aggregator is the minimum
start and maximum end over the windows, and slot generation produces exactly
`((globalEnd - globalStart).toNat + 29) / 30` (the ceiling of the span over
30 minutes) chronologically ordered slots, slot `k` being
`[globalStart + 30k, globalStart + 30(k+1))`; the last slot may extend past
`globalEnd`. -/
theorem aggregator_span_and_slots (a : AvailRow) (rest : List AvailRow) :
    (∃ w ∈ a :: rest, globalStart a rest = w.startTime) ∧
    (∀ w ∈ a :: rest, globalStart a rest ≤ w.startTime) ∧
    (∃ w ∈ a :: rest, globalEnd a rest = w.endTime) ∧
    (∀ w ∈ a :: rest, w.endTime ≤ globalEnd a rest) ∧
    genSlots (globalStart a rest) (globalEnd a rest) =
      (List.range (((globalEnd a rest - globalStart a rest).toNat + 29) / 30)).map
        (fun k : Nat => ((globalStart a rest + 30 * (k : Int),
          globalStart a rest + 30 * ((k : Int) + 1)) : Int × Int)) :=
  ⟨(globalStart_spec a rest).1, (globalStart_spec a rest).2,
   (globalEnd_spec a rest).1, (globalEnd_spec a rest).2,
   genSlots_closed (globalEnd a rest) (globalStart a rest)⟩

/-- C4: the coverage count of a slot is the number of windows that fully
contain it (`window.start ≤ slot.start` and `window.end ≥ slot.end`), and a
window that overlaps the slot without containing it contributes nothing. -/
theorem coverage_counts_full_containment (avails : List AvailRow) (slot : Int × Int)
    (w : AvailRow) :
    coverage avails slot =
      (avails.filter (fun v => decide (v.startTime ≤ slot.1 ∧ slot.2 ≤ v.endTime))).length ∧
    (w.startTime < slot.2 → slot.1 < w.endTime →
      ¬(w.startTime ≤ slot.1 ∧ slot.2 ≤ w.endTime) →
      coverage (w :: avails) slot = coverage avails slot) := by
  constructor
  · rw [coverage, List.countP_eq_length_filter]
    have hpred : (fun v : AvailRow => decide (v.startTime ≤ slot.1 ∧ slot.2 ≤ v.endTime)) =
        (fun v : AvailRow => decide (v.startTime ≤ slot.1) && decide (slot.2 ≤ v.endTime)) := by
      funext v
      rw [Bool.decide_and]
    rw [hpred]
  · intro _ _ hnc
    rw [coverage, coverage, List.countP_cons]
    have hfalse : (w.startTime ≤ slot.1 && slot.2 ≤ w.endTime) = false := by
      rw [← Bool.decide_and]
      exact decide_eq_false hnc
    rw [hfalse]
    simp

/-- Witness for C4: the window `[09:00, 10:00)` (in minutes `[540, 600)`)
overlaps the slot `[09:45, 10:15)` = `[585, 615)` without containing it and
is not counted for it. -/
theorem coverage_counts_full_containment_witness :
    coverage [⟨"A", "e", 540, 600⟩, ⟨"A", "e", 540, 600⟩] (585, 615) =
      coverage [⟨"A", "e", 540, 600⟩] (585, 615) :=
  (coverage_counts_full_containment [⟨"A", "e", 540, 600⟩] (585, 615)
    ⟨"A", "e", 540, 600⟩).2 (by decide) (by decide) (by decide)

/-- C3 fails on the code: `update_event_time` does not check that the
confirmed time is absent — on an event whose confirmed time is already
`999` it reports success and overwrites the value. -/
theorem update_overwrites_confirmed_counterexample :
    (update_event_time [⟨"e1", some 999⟩] "e1" 540).2 = .ok "Event time updated successfully" ∧
    (update_event_time [⟨"e1", some 999⟩] "e1" 540).1 = [⟨"e1", some 540⟩] := by
  decide

/-- C3 amended: the confirmed-time update succeeds unconditionally,
overwriting any present confirmed time for the matching rows; a repeated
`find_best_time` on unchanged availability recomputes the same time and
issues the write again, returning the same result and leaving the state
unchanged only because the recomputation is deterministic. -/
theorem update_unconditional_and_finalize_value_idempotent :
    (∀ (events : List EventRow) (event_id : String) (t : Int),
        (update_event_time events event_id t).2 = .ok "Event time updated successfully" ∧
        (∀ e ∈ (update_event_time events event_id t).1,
            e.eventID = event_id → e.confirmedTime = some t)) ∧
    (∀ (rows : List AvailRow) (events : List EventRow) (event_id : String),
        find_best_time rows ((find_best_time rows events event_id).1) event_id =
          find_best_time rows events event_id) := by
  constructor
  · intro events event_id t
    refine ⟨rfl, ?_⟩
    intro e he heid
    simp only [update_event_time, List.mem_map] at he
    obtain ⟨x, _, hx⟩ := he
    by_cases hxid : x.eventID = event_id
    · rw [← hx, if_pos hxid]
    · rw [← hx, if_neg hxid] at heid ⊢
      exact absurd heid hxid
  · intro rows events event_id
    cases hsel : select_time rows event_id with
    | none => simp [find_best_time, hsel]
    | some t =>
      simp only [find_best_time, hsel, update_event_time, List.map_map]
      congr 1
      apply List.map_congr_left
      intro e _
      by_cases hid : e.eventID = event_id
      · simp [Function.comp_apply, hid]
      · simp [Function.comp_apply, hid]

/-- Witness for the amended C3 theorem: updating an already-confirmed event row
succeeds and leaves the new value. -/
theorem update_unconditional_witness :
    EventRow.confirmedTime ⟨"e1", some 540⟩ = some 540 :=
  (update_unconditional_and_finalize_value_idempotent.1 [⟨"e1", some 999⟩] "e1" 540).2
    ⟨"e1", some 540⟩ (by decide) (by decide)

/-- C6: finalizing an event with zero recorded availability windows returns
the error value and writes nothing: the events table is unchanged. -/
theorem finalize_no_availability (rows : List AvailRow) (events : List EventRow)
    (event_id : String) (h : rows.filter (fun r => r.eventID = event_id) = []) :
    find_best_time rows events event_id = (events, .err "Unable to find a suitable time") := by
  simp [find_best_time, select_time, h, select_time_windows]

/-- Witness for C6 on an empty availability table. -/
theorem finalize_no_availability_witness :
    find_best_time [] [⟨"e1", none⟩] "e1" =
      ([⟨"e1", none⟩], .err "Unable to find a suitable time") :=
  finalize_no_availability [] [⟨"e1", none⟩] "e1" (by decide)

/-- C8 fails on the code: with `user_id`, `event_id` and `availiable_time`
all present and non-empty, the rsvp branch of the handler does not proceed to
record availability — line 197 evaluates the unbound name `start_time` and
the `NameError` crashes the request. -/
theorem handler_rsvp_crashes_on_complete_params (store : Store) (ag mv : Option String) :
    lambda_handler store ⟨ag, some "rsvp",
        some [("user_id", "u1"), ("event_id", "e1"),
          ("availiable_time", "start:24-01-01:10-00 end:24-01-01:11-00")], mv⟩ =
      (store, .crash "NameError: name start_time is not defined") := by
  simp [lambda_handler, get_named_parameter]

/-- C10: a request whose function field is exactly `"find_best_time"` falls
through to the `"Invalid function"` response, because the dispatch compares
against `"find_best_time`"` with a trailing backtick; the store is untouched. -/
theorem handler_find_best_time_misdispatch (store : Store) (ag : Option String)
    (params : Option (List (String × String))) (mv : String) :
    lambda_handler store ⟨ag, some "find_best_time", params, some mv⟩ =
      (store, .response (.text "Invalid function") "find_best_time" (ag.getD "") mv) := by
  simp [lambda_handler]
